import Mathlib

/-!
Shallow embedding of the request-handling layer of
`src/trytond/trytond/protocols/wrappers.py`:

* `parse_authorization_header` — parsing of the `session` authorization
  scheme (byte strings are modelled as `List Nat`, one entry per byte);
* `with_transaction` — the transactional retry executor, modelled as a
  function producing the ordered trace of its observable events
  (sleeps, transaction attempts, rollbacks, the commit, deferred task runs)
  together with its outcome;
* `with_pool` — the error-conversion wrapper;
* `user_application` — the application-scoped authorization decorator.

The CPython / stdlib primitives the source calls (`bytes.split(None, 1)`,
`bytes.split(b':', 3)`, `bytes.lower`, `base64.b64decode`, `int()`) are
embedded faithfully below, each with a note on the corner it models.
-/

/-- Predicate for the six ASCII whitespace bytes recognised by CPython's
`Py_ISSPACE` (space, tab, newline, vertical tab, form feed, carriage
return), used by `bytes.split(None, ...)` and by `int()` stripping. -/
def isPySpaceByte (b : Nat) : Bool :=
  decide (b = 32 ∨ b = 9 ∨ b = 10 ∨ b = 11 ∨ b = 12 ∨ b = 13)

/-- Predicate for ASCII decimal digit bytes. -/
def isPyDigit (b : Nat) : Bool :=
  decide (48 ≤ b ∧ b ≤ 57)

/-- Models `value.encode('latin1')` for strings whose characters are all
below U+0100 (latin-1 encodes such a character to the byte equal to its
code point; the claims only involve ASCII header values). -/
def latin1 (s : String) : List Nat :=
  s.toList.map Char.toNat

/-- Models `bytes.decode('latin1')`: each byte becomes the character with
that code point. -/
def decodeLatin1 (bs : List Nat) : String :=
  String.mk (bs.map Char.ofNat)

/-- Models `bytes.lower()`: ASCII uppercase letters are shifted to
lowercase, all other bytes are unchanged. -/
def bytesLower (s : List Nat) : List Nat :=
  s.map (fun b => if 65 ≤ b ∧ b ≤ 90 then b + 32 else b)

/-- Models CPython `bytes.split(None, 1)` (split on runs of ASCII
whitespace with maxsplit 1): leading whitespace is skipped; the first
token ends at the next whitespace run; that run is skipped and, if
anything remains, the remainder (verbatim, trailing whitespace included)
is the second and last chunk. An empty or all-whitespace input yields
the empty list. -/
def splitWs1 (s : List Nat) : List (List Nat) :=
  let s1 := s.dropWhile isPySpaceByte
  if s1.isEmpty then []
  else
    let tok := s1.takeWhile (fun b => !isPySpaceByte b)
    let rest := (s1.dropWhile (fun b => !isPySpaceByte b)).dropWhile isPySpaceByte
    if rest.isEmpty then [tok] else [tok, rest]

/-- Models CPython `bytes.split(sep, maxsplit)` for a one-byte separator,
accumulator-style: when `maxsplit` is exhausted the rest of the input is
one chunk, separators included. -/
def splitByteGo (sep : Nat) : List Nat → Nat → List Nat → List (List Nat)
  | s, 0, cur => [cur.reverse ++ s]
  | [], _, cur => [cur.reverse]
  | c :: rest, m + 1, cur =>
      if c = sep then cur.reverse :: splitByteGo sep rest m []
      else splitByteGo sep rest (m + 1) (c :: cur)

/-- Models CPython `data.split(bytes([sep]), maxsplit)`. -/
def splitByte (sep maxsplit : Nat) (s : List Nat) : List (List Nat) :=
  splitByteGo sep s maxsplit []

/-- Value of a byte in the standard base64 alphabet (`A`–`Z`, `a`–`z`,
`0`–`9`, `+`, `/`), `none` for every other byte. -/
def b64val (c : Nat) : Option Nat :=
  if 65 ≤ c ∧ c ≤ 90 then some (c - 65)
  else if 97 ≤ c ∧ c ≤ 122 then some (c - 71)
  else if 48 ≤ c ∧ c ≤ 57 then some (c + 4)
  else if c = 43 then some 62
  else if c = 47 then some 63
  else none

/-- Core loop of CPython's `binascii.a2b_base64` in its default
non-strict mode, which is what `base64.b64decode` calls: bytes outside
the alphabet are skipped; a `=` pad at quad position ≥ 2 that completes
a quad ends the decode (remaining input ignored); an incomplete final
quad (including a lone data character) is an error, modelled as `none`.
State: remaining input, quad position (0–3), pending high bits, count of
pads seen at quad position ≥ 2, accumulated output (reversed). -/
def a2bGo : List Nat → Nat → Nat → Nat → List Nat → Option (List Nat)
  | [], quadPos, _, _, acc =>
      if quadPos = 0 then some acc.reverse else none
  | c :: rest, quadPos, left, pads, acc =>
      if c = 61 then
        if 2 ≤ quadPos then
          if 4 ≤ quadPos + (pads + 1) then some acc.reverse
          else a2bGo rest quadPos left (pads + 1) acc
        else a2bGo rest quadPos left pads acc
      else
        match b64val c with
        | none => a2bGo rest quadPos left pads acc
        | some v =>
          match quadPos with
          | 0 => a2bGo rest 1 v 0 acc
          | 1 => a2bGo rest 2 (v % 16) 0 ((left * 4 + v / 16) :: acc)
          | 2 => a2bGo rest 3 (v % 4) 0 ((left * 16 + v / 4) :: acc)
          | _ => a2bGo rest 0 0 0 ((left * 64 + v) :: acc)

/-- Models `base64.b64decode(data)` (no altchars, default non-strict
validation): `none` models a raised `binascii.Error`. -/
def b64decode (s : List Nat) : Option (List Nat) :=
  a2bGo s 0 0 0 []

/-- Digit-sequence tail of CPython `int()` parsing: decimal digits with
single underscores allowed between digits (never leading, trailing or
doubled). -/
def pyDigitsGo : List Nat → Nat → Option Nat
  | [], acc => some acc
  | c :: rest, acc =>
      if isPyDigit c then pyDigitsGo rest (acc * 10 + (c - 48))
      else if c = 95 then
        match rest with
        | [] => none
        | d :: rest2 =>
            if isPyDigit d then pyDigitsGo rest2 (acc * 10 + (d - 48)) else none
      else none

/-- Models CPython `int(bytes_value)` in base 10: ASCII whitespace is
stripped on both ends, then an optional sign, then a non-empty digit
sequence (underscores only between digits). `none` models a raised
`ValueError`. -/
def pyIntOfBytes (s : List Nat) : Option Int :=
  let t := ((s.dropWhile isPySpaceByte).reverse.dropWhile isPySpaceByte).reverse
  match t with
  | [] => none
  | c :: rest =>
      if c = 43 then
        match rest with
        | [] => none
        | d :: rest2 =>
            if isPyDigit d then (pyDigitsGo rest2 (d - 48)).map (fun n => (n : Int))
            else none
      else if c = 45 then
        match rest with
        | [] => none
        | d :: rest2 =>
            if isPyDigit d then (pyDigitsGo rest2 (d - 48)).map (fun n => -(n : Int))
            else none
      else if isPyDigit c then (pyDigitsGo rest (c - 48)).map (fun n => (n : Int))
      else none

/-- Result of `parse_authorization_header` when it recognises the
`session` scheme: the `werkzeug.datastructures.Authorization('session',
{'username': ..., 'userid': ..., 'session': ...})` value built at the
end of the function. -/
structure SessionAuth where
  username : String
  userid : Int
  session : String
deriving DecidableEq

/-- Embedding of `parse_authorization_header(value)`
(`wrappers.py` lines 133–154). The input is `none` for Python `None`
and `some bytes` otherwise (the `value.encode('latin1')` step for `str`
input is `latin1` above). A result of `none` models the function
returning `None`: every failure inside the `try` blocks — base64 error,
unpacking the colon split into three names, `int()` — is caught by the
source and turned into `return None`. -/
def parse_authorization_header (value : Option (List Nat)) : Option SessionAuth :=
  match value with
  | none => none
  | some v =>
    if v = [] then none
    else
      match splitWs1 v with
      | [authType, authInfo] =>
        if bytesLower authType = latin1 "session" then
          match b64decode authInfo with
          | some decoded =>
            match splitByte 58 3 decoded with
            | [username, userid, session] =>
              match pyIntOfBytes userid with
              | some uid =>
                  some (SessionAuth.mk (decodeLatin1 username) uid (decodeLatin1 session))
              | none => none
            | _ => none
          | none => none
        else none
      | _ => none

example : b64decode (latin1 "dXNlcjoxMjM6dG9rZW4=") = some (latin1 "user:123:token") := by
  decide

example :
    parse_authorization_header (some (latin1 "session dXNlcjoxMjM6dG9rZW4=")) =
      some (SessionAuth.mk "user" 123 "token") := by
  decide

example : parse_authorization_header (some (latin1 "session dXNlcjoxMjM")) = none := by
  decide

example : splitByte 58 3 (latin1 "a:1:b:c") = [latin1 "a", latin1 "1", latin1 "b", latin1 "c"] := by
  decide

/-- Outcome of one invocation of the wrapped handler `func` inside
`with_transaction`: normal return carrying the enqueued deferred task
ids of the transaction, a raised `backend.DatabaseOperationalError`, or
any other raised exception (tagged by a code). -/
inductive HandlerOutcome where
  | success (result : Nat) (tasks : List Nat)
  | transientFailure
  | otherFailure (e : Nat)
deriving DecidableEq

/-- Observable events of one `with_transaction` run, in order:
`sleep q` is `time.sleep(q)`, `attempt c` is `Transaction().start(...)`
followed by the handler invocation at loop counter `c`, `rollback` is
`transaction.rollback()`, `commit` is `transaction.commit()`, and
`runTask t` is `run_task(pool, t)`. -/
inductive Event where
  | sleep (q : ℚ)
  | attempt (count : Nat)
  | rollback
  | commit
  | runTask (t : Nat)
deriving DecidableEq

/-- Final outcome of a `with_transaction` run: returned result,
propagated `DatabaseOperationalError`, or propagated other exception. -/
inductive TxOutcome where
  | ok (result : Nat)
  | transientError
  | otherError (e : Nat)
deriving DecidableEq

def Event.isAttempt : Event → Bool
  | .attempt _ => true
  | _ => false

def Event.isCommit : Event → Bool
  | .commit => true
  | _ => false

def Event.isRunTask : Event → Bool
  | .runTask _ => true
  | _ => false

/-- Duration in seconds of the backoff sleep at loop counter `count`:
`0.02 * (retry - count)`. -/
def sleepAmount (retry count : Nat) : ℚ :=
  (2 / 100 : ℚ) * ((retry - count : ℕ) : ℚ)

/-- Backoff events at loop counter `count`: the source sleeps
`0.02 * (retry - count)` seconds on every iteration except the first
(`if count != retry: time.sleep(0.02 * (retry - count))`). -/
def backoff (retry count : Nat) : List Event :=
  if count = retry then [] else [Event.sleep (sleepAmount retry count)]

/-- Attempt loop of `with_transaction` (`for count in range(retry, -1, -1)`),
by the loop counter `count`, started at `count = retry`. The handler is
indexed by the number of attempts already made (`retry - count`).
Per iteration: optional backoff sleep, open transaction and run the
handler; on success commit and then drain `transaction.tasks` by popping
from the end (`while transaction.tasks: task_id = transaction.tasks.pop();
run_task(pool, task_id)`) and return; on `DatabaseOperationalError`,
if `count` is non-zero and the transaction is not read-only, roll back
and continue with `count - 1`, otherwise re-raise; on any other
exception, propagate it. -/
def with_transaction_go (ro : Bool) (retry : Nat) (handler : Nat → HandlerOutcome) :
    Nat → List Event × TxOutcome
  | 0 =>
      match handler retry with
      | .success r ts =>
          (backoff retry 0 ++ Event.attempt 0 :: Event.commit :: ts.reverse.map Event.runTask,
            TxOutcome.ok r)
      | .transientFailure => (backoff retry 0 ++ [Event.attempt 0], TxOutcome.transientError)
      | .otherFailure e => (backoff retry 0 ++ [Event.attempt 0], TxOutcome.otherError e)
  | count + 1 =>
      match handler (retry - (count + 1)) with
      | .success r ts =>
          (backoff retry (count + 1) ++
              Event.attempt (count + 1) :: Event.commit :: ts.reverse.map Event.runTask,
            TxOutcome.ok r)
      | .transientFailure =>
          if ro then
            (backoff retry (count + 1) ++ [Event.attempt (count + 1)], TxOutcome.transientError)
          else
            let rest := with_transaction_go ro retry handler count
            (backoff retry (count + 1) ++ Event.attempt (count + 1) :: Event.rollback :: rest.1,
              rest.2)
      | .otherFailure e =>
          (backoff retry (count + 1) ++ [Event.attempt (count + 1)], TxOutcome.otherError e)

/-- Embedding of the `with_transaction(readonly, user, context)` wrapper
(`wrappers.py` lines 197–239), restricted to what drives control flow:
`readonly` (the decorator argument, `none` meaning "infer from the
request method": mutating verbs POST/PUT/DELETE/PATCH are read-write,
everything else read-only), the configured retry count
(`config.getint('database', 'retry')`), and the handler's behaviour per
attempt. The `user` and `context` arguments of the source only
parametrise the opened transaction and do not influence the retry loop,
the commit or the task draining, so they are not modelled. The result is
the ordered event trace plus the outcome. -/
def with_transaction (readonly : Option Bool) (method : String) (retry : Nat)
    (handler : Nat → HandlerOutcome) : List Event × TxOutcome :=
  let readonly_ :=
    match readonly with
    | some b => b
    | none =>
        if method = "POST" ∨ method = "PUT" ∨ method = "DELETE" ∨ method = "PATCH" then false
        else true
  with_transaction_go readonly_ retry handler retry

example :
    with_transaction (some false) "GET" 2 (fun _ => HandlerOutcome.transientFailure) =
      ([Event.attempt 2, Event.rollback,
        Event.sleep (sleepAmount 2 1), Event.attempt 1, Event.rollback,
        Event.sleep (sleepAmount 2 0), Event.attempt 0],
        TxOutcome.transientError) := by
  norm_num [with_transaction, with_transaction_go, backoff]

example :
    with_transaction (some true) "GET" 2 (fun _ => HandlerOutcome.transientFailure) =
      ([Event.attempt 2], TxOutcome.transientError) := by
  norm_num [with_transaction, with_transaction_go, backoff]

example :
    with_transaction (some false) "GET" 2 (fun _ => HandlerOutcome.success 5 [1, 2, 3]) =
      ([Event.attempt 2, Event.commit, Event.runTask 3, Event.runTask 2, Event.runTask 1],
        TxOutcome.ok 5) := by
  norm_num [with_transaction, with_transaction_go, backoff]

/-- Exceptions distinguished by `with_pool`'s `except` clauses:
`werkzeug` HTTP exceptions, `UserError`, `UserWarning`, and anything
else. -/
inductive PyExc where
  | httpException (status : Nat)
  | userError (msg : String)
  | userWarning (msg : String)
  | other (e : Nat)
deriving DecidableEq

/-- Result of the `with_pool` wrapper around one call of the wrapped
function: a returned value, a re-raised exception, or an
`abort(status, e)` (which raises the corresponding HTTP exception). -/
inductive PoolOutcome (α : Type) where
  | result (a : α)
  | reraise (e : PyExc)
  | abort (status : Nat)
deriving DecidableEq

/-- Embedding of the exception handling of `with_pool` (`wrappers.py`
lines 169–194): the pool lookup/initialisation is out of scope; given
whether the request is an RPC call (`request.rpc_method` truthy) and the
wrapped function's outcome, an `HTTPException` is re-raised as is;
`UserError`/`UserWarning` are re-raised for RPC calls and turned into
`abort(HTTPStatus.BAD_REQUEST, e)` otherwise; every other exception is
re-raised for RPC calls and turned into
`abort(HTTPStatus.INTERNAL_SERVER_ERROR, e)` otherwise. -/
def with_pool {α : Type} (rpcMethod : Bool) (funcResult : Except PyExc α) : PoolOutcome α :=
  match funcResult with
  | .ok a => PoolOutcome.result a
  | .error (.httpException s) => PoolOutcome.reraise (PyExc.httpException s)
  | .error (.userError m) =>
      if rpcMethod then PoolOutcome.reraise (PyExc.userError m) else PoolOutcome.abort 400
  | .error (.userWarning m) =>
      if rpcMethod then PoolOutcome.reraise (PyExc.userWarning m) else PoolOutcome.abort 400
  | .error (.other e) =>
      if rpcMethod then PoolOutcome.reraise (PyExc.other e) else PoolOutcome.abort 500

/-- Models Python `str.split(None, 1)` for the ASCII header values the
claims are about, by reusing the byte-level split on the code points. -/
def splitWs1Str (s : String) : List String :=
  (splitWs1 (s.toList.map Char.toNat)).map decodeLatin1

/-- Models Python `str.lower()` on ASCII strings. -/
def strLower (s : String) : String :=
  String.mk (s.toList.map (fun c =>
    if 65 ≤ c.toNat ∧ c.toNat ≤ 90 then Char.ofNat (c.toNat + 32) else c))

/-- Result of one call of a `user_application`-wrapped handler:
`keyError` models the uncaught `KeyError` that
`request.headers['Authorization']` raises when the header is absent
(the werkzeug `EnvironHeaders` mapping raises on a missing key);
`abort s` models `abort(s)`; `ok a` is the handler's response. -/
inductive UAOutcome (α : Type) where
  | keyError
  | abort (status : Nat)
  | ok (a : α)
deriving DecidableEq

/-- Embedding of the `user_application(name, json)` wrapper
(`wrappers.py` lines 242–274). `check` is
`res.user.application`'s `UserApplication.check(auth_info, name)`,
returning the registration's owning user id (`application.user.id`) or
`none`; `headers` is the request's header mapping; the handler receives
the user id it is run under (`transaction.set_user(application.user.id)`
with `check_access()` — the scoped access-control relaxation has no
further observable effect here). The JSON serialisation of a
non-`Response` result is response post-processing that does not change
which branch is taken, so the handler's value is returned as is. The
result also carries how many times the handler and the token lookup ran:
`(outcome, handler invocations, UserApplication.check invocations)`. -/
def user_application {α : Type} (name : String) (check : String → String → Option Nat)
    (headers : String → Option String) (handler : Nat → α) : UAOutcome α × Nat × Nat :=
  match headers "Authorization" with
  | none => (UAOutcome.keyError, 0, 0)
  | some authorization =>
    match splitWs1Str authorization with
    | [authType, authInfo] =>
      if strLower authType = "bearer" then
        match check authInfo name with
        | some appUserId => (UAOutcome.ok (handler appUserId), 1, 1)
        | none => (UAOutcome.abort 403, 0, 1)
      else (UAOutcome.abort 403, 0, 0)
    | _ => (UAOutcome.abort 401, 0, 0)

example :
    user_application "app" (fun _ _ => none) (fun _ => none) (fun u => u) =
      (UAOutcome.keyError, 0, 0) := by
  decide

example :
    user_application "app" (fun _ _ => none)
      (fun k => if k = "Authorization" then some "Basic Zm9v" else none) (fun u => u) =
      (UAOutcome.abort 403, 0, 0) := by
  decide

example :
    user_application "app" (fun t n => if t = "tok" ∧ n = "app" then some 42 else none)
      (fun k => if k = "Authorization" then some "Bearer tok" else none) (fun u => u + 1) =
      (UAOutcome.ok 43, 1, 1) := by
  decide

/-- Sleep discipline of a `with_transaction` trace with retry count `R`:
every attempt except the first (the one at loop counter `R`) is
immediately preceded by a sleep of `sleepAmount R c` seconds, `c` being
that attempt's loop counter (the attempts then remaining). -/
def sleepsOk (R : Nat) (evs : List Event) : Prop :=
  ∀ i c, evs[i]? = some (Event.attempt c) → c ≠ R →
    ∃ j, i = j + 1 ∧ evs[j]? = some (Event.sleep (sleepAmount R c))

theorem splitWs1_nil : splitWs1 [] = [] := rfl

theorem splitByteGo_length (sep : Nat) :
    ∀ (s : List Nat) (m : Nat) (cur : List Nat),
      (splitByteGo sep s m cur).length =
        min (s.countP (fun b => decide (b = sep))) m + 1 := by
  intro s
  induction s with
  | nil =>
      intro m cur
      cases m <;> simp [splitByteGo]
  | cons c rest ih =>
      intro m cur
      cases m with
      | zero => simp [splitByteGo]
      | succ m2 =>
          by_cases hc : c = sep
          · simp [splitByteGo, hc, ih, List.countP_cons]
            omega
          · simp [splitByteGo, hc, ih, List.countP_cons]

theorem backoff_mem {R c : Nat} {e : Event} (he : e ∈ backoff R c) :
    ∃ q, e = Event.sleep q := by
  unfold backoff at he
  split at he
  · simp at he
  · simp at he
    exact ⟨_, he⟩

theorem backoff_no_attempt (R c : Nat) : (backoff R c).countP Event.isAttempt = 0 := by
  unfold backoff
  split
  · simp
  · simp [List.countP_cons, Event.isAttempt]

theorem go_transient (R : Nat) (h : Nat → HandlerOutcome)
    (hT : ∀ n, h n = HandlerOutcome.transientFailure) :
    ∀ count, (with_transaction_go false R h count).1.countP Event.isAttempt = count + 1 ∧
      (with_transaction_go false R h count).2 = TxOutcome.transientError := by
  intro count
  induction count with
  | zero =>
      simp [with_transaction_go, hT, backoff, List.countP_append, List.countP_cons,
        Event.isAttempt]
  | succ c ih =>
      simp only [with_transaction_go, hT, Bool.false_eq_true, if_false]
      constructor
      · simp [List.countP_append, List.countP_cons, Event.isAttempt, backoff, ih.1]
      · exact ih.2

theorem go_ok (ro : Bool) (R : Nat) (h : Nat → HandlerOutcome) :
    ∀ count evs r, with_transaction_go ro R h count = (evs, TxOutcome.ok r) →
      ∃ k ts pre, h k = HandlerOutcome.success r ts ∧
        evs = pre ++ Event.commit :: ts.reverse.map Event.runTask ∧
        ∀ e ∈ pre, e.isCommit = false ∧ e.isRunTask = false := by
  intro count
  induction count with
  | zero =>
      intro evs r hrun
      cases hh : h R with
      | success r2 ts =>
          simp only [with_transaction_go, hh, Prod.mk.injEq] at hrun
          obtain ⟨he, ho⟩ := hrun
          injection ho with hr
          subst hr
          refine ⟨R, ts, backoff R 0 ++ [Event.attempt 0], hh, ?_, ?_⟩
          · rw [← he]; simp
          · intro e he2
            rcases List.mem_append.mp he2 with hb | hc
            · obtain ⟨q, rfl⟩ := backoff_mem hb
              exact ⟨rfl, rfl⟩
            · simp at hc
              subst hc
              exact ⟨rfl, rfl⟩
      | transientFailure =>
          simp only [with_transaction_go, hh, Prod.mk.injEq] at hrun
          exact absurd hrun.2 (by simp)
      | otherFailure e2 =>
          simp only [with_transaction_go, hh, Prod.mk.injEq] at hrun
          exact absurd hrun.2 (by simp)
  | succ c ih =>
      intro evs r hrun
      cases hh : h (R - (c + 1)) with
      | success r2 ts =>
          simp only [with_transaction_go, hh, Prod.mk.injEq] at hrun
          obtain ⟨he, ho⟩ := hrun
          injection ho with hr
          subst hr
          refine ⟨R - (c + 1), ts, backoff R (c + 1) ++ [Event.attempt (c + 1)], hh, ?_, ?_⟩
          · rw [← he]; simp
          · intro e he2
            rcases List.mem_append.mp he2 with hb | hc
            · obtain ⟨q, rfl⟩ := backoff_mem hb
              exact ⟨rfl, rfl⟩
            · simp at hc
              subst hc
              exact ⟨rfl, rfl⟩
      | transientFailure =>
          by_cases hro : ro
          · simp only [with_transaction_go, hh] at hrun
            rw [if_pos hro, Prod.mk.injEq] at hrun
            exact absurd hrun.2 (by simp)
          · simp only [with_transaction_go, hh] at hrun
            rw [if_neg hro, Prod.mk.injEq] at hrun
            obtain ⟨he, ho⟩ := hrun
            have hgo : with_transaction_go ro R h c =
                ((with_transaction_go ro R h c).1, (with_transaction_go ro R h c).2) := rfl
            rw [ho] at hgo
            obtain ⟨k, ts, pre, hk, hevs, hpre⟩ := ih _ r hgo
            refine ⟨k, ts,
              backoff R (c + 1) ++ Event.attempt (c + 1) :: Event.rollback :: pre, hk, ?_, ?_⟩
            · rw [← he, hevs]; simp
            · intro e he2
              rcases List.mem_append.mp he2 with hb | hc
              · obtain ⟨q, rfl⟩ := backoff_mem hb
                exact ⟨rfl, rfl⟩
              · simp only [List.mem_cons] at hc
                rcases hc with rfl | rfl | hc2
                · exact ⟨rfl, rfl⟩
                · exact ⟨rfl, rfl⟩
                · exact hpre _ hc2
      | otherFailure e2 =>
          simp only [with_transaction_go, hh, Prod.mk.injEq] at hrun
          exact absurd hrun.2 (by simp)

theorem go_other (ro : Bool) (R : Nat) (h : Nat → HandlerOutcome) :
    ∀ count, count ≤ R → ∀ evs e,
      with_transaction_go ro R h count = (evs, TxOutcome.otherError e) →
      (∀ ev ∈ evs, ev.isCommit = false ∧ ev.isRunTask = false) ∧
      ∃ c2, c2 ≤ count ∧ h (R - c2) = HandlerOutcome.otherFailure e ∧
        evs.countP Event.isAttempt = count - c2 + 1 ∧
        evs.getLast? = some (Event.attempt c2) := by
  intro count
  induction count with
  | zero =>
      intro _hle evs e hrun
      cases hh : h R with
      | success r2 ts =>
          simp only [with_transaction_go, hh, Prod.mk.injEq] at hrun
          exact absurd hrun.2 (by simp)
      | transientFailure =>
          simp only [with_transaction_go, hh, Prod.mk.injEq] at hrun
          exact absurd hrun.2 (by simp)
      | otherFailure e2 =>
          simp only [with_transaction_go, hh, Prod.mk.injEq] at hrun
          obtain ⟨he, ho⟩ := hrun
          injection ho with he2
          subst he2
          constructor
          · intro ev hev
            rw [← he] at hev
            rcases List.mem_append.mp hev with hb | hc
            · obtain ⟨q, rfl⟩ := backoff_mem hb
              exact ⟨rfl, rfl⟩
            · simp at hc
              subst hc
              exact ⟨rfl, rfl⟩
          · refine ⟨0, Nat.le_refl 0, by simpa using hh, ?_, ?_⟩
            · rw [← he]
              simp [List.countP_append, List.countP_cons, Event.isAttempt, backoff_no_attempt]
            · rw [← he]
              exact List.getLast?_append_cons (backoff R 0) (Event.attempt 0) []
  | succ c ih =>
      intro hle evs e hrun
      cases hh : h (R - (c + 1)) with
      | success r2 ts =>
          simp only [with_transaction_go, hh, Prod.mk.injEq] at hrun
          exact absurd hrun.2 (by simp)
      | transientFailure =>
          by_cases hro : ro
          · simp only [with_transaction_go, hh] at hrun
            rw [if_pos hro, Prod.mk.injEq] at hrun
            exact absurd hrun.2 (by simp)
          · simp only [with_transaction_go, hh] at hrun
            rw [if_neg hro, Prod.mk.injEq] at hrun
            obtain ⟨he, ho⟩ := hrun
            have hgo : with_transaction_go ro R h c =
                ((with_transaction_go ro R h c).1, (with_transaction_go ro R h c).2) := rfl
            rw [ho] at hgo
            obtain ⟨hall, c2, hc2le, hk, hcount, hlast⟩ :=
              ih (Nat.le_of_succ_le hle) _ e hgo
            constructor
            · intro ev hev
              rw [← he] at hev
              rcases List.mem_append.mp hev with hb | hc
              · obtain ⟨q, rfl⟩ := backoff_mem hb
                exact ⟨rfl, rfl⟩
              · simp only [List.mem_cons] at hc
                rcases hc with rfl | rfl | hc2
                · exact ⟨rfl, rfl⟩
                · exact ⟨rfl, rfl⟩
                · exact hall _ hc2
            · refine ⟨c2, Nat.le_succ_of_le hc2le, hk, ?_, ?_⟩
              · rw [← he]
                simp [List.countP_append, List.countP_cons, Event.isAttempt,
                  backoff_no_attempt, hcount]
                omega
              · rw [← he]
                have hne : (with_transaction_go ro R h c).1 ≠ [] := by
                  intro hnil
                  rw [hnil] at hlast
                  simp at hlast
                rw [List.getLast?_append_cons, List.getLast?_cons_cons,
                  show Event.rollback :: (with_transaction_go ro R h c).1 =
                    [Event.rollback] ++ (with_transaction_go ro R h c).1 from rfl,
                  List.getLast?_append_of_ne_nil _ hne]
                exact hlast
      | otherFailure e2 =>
          simp only [with_transaction_go, hh, Prod.mk.injEq] at hrun
          obtain ⟨he, ho⟩ := hrun
          injection ho with he2
          subst he2
          constructor
          · intro ev hev
            rw [← he] at hev
            rcases List.mem_append.mp hev with hb | hc
            · obtain ⟨q, rfl⟩ := backoff_mem hb
              exact ⟨rfl, rfl⟩
            · simp at hc
              subst hc
              exact ⟨rfl, rfl⟩
          · refine ⟨c + 1, Nat.le_refl _, by simpa using hh, ?_, ?_⟩
            · rw [← he]
              simp [List.countP_append, List.countP_cons, Event.isAttempt, backoff_no_attempt]
            · rw [← he]
              exact List.getLast?_append_cons (backoff R (c + 1)) (Event.attempt (c + 1)) []

theorem sleepsOk_nil (R : Nat) : sleepsOk R [] := by
  intro i c hi
  simp at hi

theorem sleepsOk_no_attempt {R : Nat} {l : List Event}
    (hl : ∀ c, Event.attempt c ∉ l) : sleepsOk R l := by
  intro i c hi _hc
  exact absurd (List.getElem?_mem hi) (hl c)

theorem sleepsOk_cons_non_attempt {R : Nat} {e : Event} {l : List Event}
    (he : ∀ c, e ≠ Event.attempt c) (hl : sleepsOk R l) : sleepsOk R (e :: l) := by
  intro i c hi hc
  cases i with
  | zero =>
      rw [List.getElem?_cons_zero] at hi
      injection hi with h1
      exact absurd h1 (he c)
  | succ i =>
      rw [List.getElem?_cons_succ] at hi
      obtain ⟨j, hij, hj⟩ := hl i c hi hc
      refine ⟨j + 1, by omega, ?_⟩
      rw [List.getElem?_cons_succ]
      exact hj

theorem sleepsOk_cons_first {R : Nat} {l : List Event} (hl : sleepsOk R l) :
    sleepsOk R (Event.attempt R :: l) := by
  intro i c hi hc
  cases i with
  | zero =>
      rw [List.getElem?_cons_zero] at hi
      injection hi with h1
      injection h1 with h2
      exact absurd h2.symm hc
  | succ i =>
      rw [List.getElem?_cons_succ] at hi
      obtain ⟨j, hij, hj⟩ := hl i c hi hc
      refine ⟨j + 1, by omega, ?_⟩
      rw [List.getElem?_cons_succ]
      exact hj

theorem sleepsOk_sleep_attempt {R count : Nat} {l : List Event}
    (hl : sleepsOk R l) :
    sleepsOk R (Event.sleep (sleepAmount R count) :: Event.attempt count :: l) := by
  intro i c hi hc
  cases i with
  | zero =>
      rw [List.getElem?_cons_zero] at hi
      simp at hi
  | succ i =>
      rw [List.getElem?_cons_succ] at hi
      cases i with
      | zero =>
          rw [List.getElem?_cons_zero] at hi
          injection hi with h1
          injection h1 with h2
          subst h2
          exact ⟨0, rfl, by rw [List.getElem?_cons_zero]⟩
      | succ i =>
          rw [List.getElem?_cons_succ] at hi
          obtain ⟨j, hij, hj⟩ := hl i c hi hc
          refine ⟨j + 2, by omega, ?_⟩
          rw [List.getElem?_cons_succ, List.getElem?_cons_succ]
          exact hj

theorem sleepsOk_block (R count : Nat) (tail : List Event) (ht : sleepsOk R tail) :
    sleepsOk R (backoff R count ++ Event.attempt count :: tail) := by
  unfold backoff
  by_cases hc : count = R
  · rw [if_pos hc]
    subst hc
    simpa using sleepsOk_cons_first ht
  · rw [if_neg hc]
    simpa using sleepsOk_sleep_attempt ht

theorem go_sleeps (ro : Bool) (R : Nat) (h : Nat → HandlerOutcome) :
    ∀ count, sleepsOk R (with_transaction_go ro R h count).1 := by
  intro count
  induction count with
  | zero =>
      cases hh : h R with
      | success r ts =>
          simp only [with_transaction_go, hh]
          exact sleepsOk_block R 0 _ (sleepsOk_no_attempt (by intro c2; simp))
      | transientFailure =>
          simp only [with_transaction_go, hh]
          exact sleepsOk_block R 0 [] (sleepsOk_nil R)
      | otherFailure e =>
          simp only [with_transaction_go, hh]
          exact sleepsOk_block R 0 [] (sleepsOk_nil R)
  | succ c ih =>
      cases hh : h (R - (c + 1)) with
      | success r ts =>
          simp only [with_transaction_go, hh]
          exact sleepsOk_block R (c + 1) _ (sleepsOk_no_attempt (by intro c2; simp))
      | transientFailure =>
          simp only [with_transaction_go, hh]
          by_cases hro : ro
          · rw [if_pos hro]
            exact sleepsOk_block R (c + 1) [] (sleepsOk_nil R)
          · rw [if_neg hro]
            exact sleepsOk_block R (c + 1) _
              (sleepsOk_cons_non_attempt (by intro c2; simp) ih)
      | otherFailure e =>
          simp only [with_transaction_go, hh]
          exact sleepsOk_block R (c + 1) [] (sleepsOk_nil R)

theorem go_head (ro : Bool) (R : Nat) (h : Nat → HandlerOutcome) :
    (with_transaction_go ro R h R).1[0]? = some (Event.attempt R) := by
  cases R with
  | zero =>
      cases hh : h 0 with
      | success r ts => simp [with_transaction_go, hh, backoff]
      | transientFailure => simp [with_transaction_go, hh, backoff]
      | otherFailure e => simp [with_transaction_go, hh, backoff]
  | succ n =>
      cases hh : h 0 with
      | success r ts => simp [with_transaction_go, Nat.sub_self, hh, backoff]
      | transientFailure =>
          by_cases hro : ro
          · simp [with_transaction_go, Nat.sub_self, hh, backoff, hro]
          · simp [with_transaction_go, Nat.sub_self, hh, backoff, hro]
      | otherFailure e => simp [with_transaction_go, Nat.sub_self, hh, backoff]

/-- C1: for every configured retry count `R ≥ 0`, a handler that raises
a transient database operational failure on every attempt of a mutating
(not read-only) transaction is attempted exactly `R + 1` times by
`with_transaction`, and the failure then propagates unchanged. -/
theorem claim_C1 (R : Nat) (h : Nat → HandlerOutcome)
    (hT : ∀ n, h n = HandlerOutcome.transientFailure) :
    (with_transaction (some false) "GET" R h).1.countP Event.isAttempt = R + 1 ∧
      (with_transaction (some false) "GET" R h).2 = TxOutcome.transientError := by
  have hgo := go_transient R h hT R
  simpa [with_transaction] using hgo

theorem claim_C1_witness :
    (with_transaction (some false) "GET" 2
        (fun _ => HandlerOutcome.transientFailure)).1.countP Event.isAttempt = 3 ∧
      (with_transaction (some false) "GET" 2
        (fun _ => HandlerOutcome.transientFailure)).2 = TxOutcome.transientError :=
  claim_C1 2 (fun _ => HandlerOutcome.transientFailure) (fun _ => rfl)

/-- C2: for every configured retry count `R ≥ 0`, a handler that raises
a transient database operational failure on a read-only transaction is
attempted exactly once by `with_transaction` — the whole trace is that
single attempt, with no sleep, no rollback and no retry — and the
failure propagates immediately. -/
theorem claim_C2 (R : Nat) (h : Nat → HandlerOutcome)
    (hT : h 0 = HandlerOutcome.transientFailure) :
    with_transaction (some true) "GET" R h = ([Event.attempt R], TxOutcome.transientError) := by
  cases R with
  | zero => simp [with_transaction, with_transaction_go, hT, backoff]
  | succ n => simp [with_transaction, with_transaction_go, Nat.sub_self, hT, backoff]

theorem claim_C2_witness :
    with_transaction (some true) "GET" 3 (fun _ => HandlerOutcome.transientFailure) =
      ([Event.attempt 3], TxOutcome.transientError) :=
  claim_C2 3 (fun _ => HandlerOutcome.transientFailure) rfl

/-- C3: in every `with_transaction` run with retry count `R`, the first
attempt (loop counter `R`) is the very first event of the trace — so it
is preceded by zero sleep — and every attempt with loop counter
(attempts remaining) `c ≠ R` is immediately preceded by a sleep of
`sleepAmount R c = 0.02 * (R - c)` seconds. -/
theorem claim_C3 (roOpt : Option Bool) (method : String) (R : Nat)
    (h : Nat → HandlerOutcome) :
    (with_transaction roOpt method R h).1[0]? = some (Event.attempt R) ∧
    sleepsOk R (with_transaction roOpt method R h).1 := by
  constructor
  · simp only [with_transaction]
    exact go_head _ R h
  · simp only [with_transaction]
    exact go_sleeps _ R h R

theorem claim_C3_witness :
    ∃ j, 3 = j + 1 ∧
      (with_transaction (some false) "GET" 2
          (fun _ : Nat => HandlerOutcome.transientFailure)).1[j]? =
        some (Event.sleep (sleepAmount 2 1)) :=
  (claim_C3 (some false) "GET" 2 (fun _ : Nat => HandlerOutcome.transientFailure)).2 3 1
    rfl (by decide)

/-- C4: whenever a `with_transaction` run returns a result, the trace
decomposes as a prefix free of commits and task runs, then the single
commit, then exactly the deferred tasks enqueued by the successful
handler attempt, run in reverse enqueue order (pop from the end), each
exactly once — so every task run is strictly after the commit. -/
theorem claim_C4 (roOpt : Option Bool) (method : String) (R : Nat) (h : Nat → HandlerOutcome)
    (evs : List Event) (r : Nat)
    (hrun : with_transaction roOpt method R h = (evs, TxOutcome.ok r)) :
    ∃ k ts pre, h k = HandlerOutcome.success r ts ∧
      evs = pre ++ Event.commit :: ts.reverse.map Event.runTask ∧
      ∀ e ∈ pre, e.isCommit = false ∧ e.isRunTask = false := by
  apply go_ok _ R h R evs r
  simpa [with_transaction] using hrun

theorem claim_C4_witness :
    ∃ (k : Nat) (ts : List Nat) (pre : List Event),
      (fun _ : Nat => HandlerOutcome.success 5 [1, 2, 3]) k = HandlerOutcome.success 5 ts ∧
      [Event.attempt 2, Event.commit, Event.runTask 3, Event.runTask 2, Event.runTask 1] =
        pre ++ Event.commit :: ts.reverse.map Event.runTask ∧
      ∀ e ∈ pre, e.isCommit = false ∧ e.isRunTask = false :=
  claim_C4 (some false) "GET" 2 (fun _ : Nat => HandlerOutcome.success 5 [1, 2, 3])
    [Event.attempt 2, Event.commit, Event.runTask 3, Event.runTask 2, Event.runTask 1] 5
    (by norm_num [with_transaction, with_transaction_go, backoff])

/-- C5: whenever a `with_transaction` run propagates a non-transient
handler exception, no commit and no deferred task run appear anywhere in
the trace, the failing attempt (the one whose handler invocation raised,
attempt index `k`, loop counter `R - k`) is the last event of the trace,
and exactly `k + 1` attempts were made — the loop neither retried nor
continued past the failure. -/
theorem claim_C5 (roOpt : Option Bool) (method : String) (R : Nat) (h : Nat → HandlerOutcome)
    (e : Nat) (evs : List Event)
    (hrun : with_transaction roOpt method R h = (evs, TxOutcome.otherError e)) :
    (∀ ev ∈ evs, ev.isCommit = false ∧ ev.isRunTask = false) ∧
    ∃ k, k ≤ R ∧ h k = HandlerOutcome.otherFailure e ∧
      evs.countP Event.isAttempt = k + 1 ∧
      evs.getLast? = some (Event.attempt (R - k)) := by
  have hex : ∃ ro, with_transaction_go ro R h R = (evs, TxOutcome.otherError e) :=
    ⟨_, by simpa [with_transaction] using hrun⟩
  obtain ⟨ro, hgo⟩ := hex
  obtain ⟨hall, c2, hc2, hk, hcount, hlast⟩ := go_other ro R h R (Nat.le_refl R) evs e hgo
  refine ⟨hall, R - c2, Nat.sub_le _ _, hk, hcount, ?_⟩
  rw [Nat.sub_sub_self hc2]
  exact hlast

theorem claim_C5_witness :
    (∀ ev ∈ [Event.attempt 2], ev.isCommit = false ∧ ev.isRunTask = false) ∧
    ∃ k, k ≤ 2 ∧
      (fun _ : Nat => HandlerOutcome.otherFailure 7) k = HandlerOutcome.otherFailure 7 ∧
      [Event.attempt 2].countP Event.isAttempt = k + 1 ∧
      [Event.attempt 2].getLast? = some (Event.attempt (2 - k)) :=
  claim_C5 (some false) "GET" 2 (fun _ : Nat => HandlerOutcome.otherFailure 7) 7
    [Event.attempt 2]
    (by norm_num [with_transaction, with_transaction_go, backoff])

/-- C6: `parse_authorization_header` on
`"session dXNlcjoxMjM6dG9rZW4="` (base64 of `user:123:token`) returns
the session credential with username `"user"`, userid `123` and session
`"token"`; on `None`, on the empty string, and on any value whose
payload fails base64 decoding, fails to split into exactly three
colon-delimited fields, or whose user-id field fails integer
conversion, it returns no credential (the embedding is a total
function, so it never raises on these inputs — the source catches every
exception of the payload parsing and returns `None`). -/
theorem claim_C6 :
    parse_authorization_header (some (latin1 "session dXNlcjoxMjM6dG9rZW4=")) =
      some (SessionAuth.mk "user" 123 "token") ∧
    parse_authorization_header none = none ∧
    parse_authorization_header (some (latin1 "")) = none ∧
    (∀ v t i, splitWs1 v = [t, i] → bytesLower t = latin1 "session" →
      b64decode i = none → parse_authorization_header (some v) = none) ∧
    (∀ v t i d, splitWs1 v = [t, i] → bytesLower t = latin1 "session" →
      b64decode i = some d → (splitByte 58 3 d).length ≠ 3 →
      parse_authorization_header (some v) = none) ∧
    (∀ v t i d u uid s2, splitWs1 v = [t, i] → bytesLower t = latin1 "session" →
      b64decode i = some d → splitByte 58 3 d = [u, uid, s2] →
      pyIntOfBytes uid = none → parse_authorization_header (some v) = none) := by
  refine ⟨by decide, rfl, by decide, ?_, ?_, ?_⟩
  · intro v t i hsplit hlow hb64
    have hv : ¬ v = [] := by
      intro hv0
      subst hv0
      rw [splitWs1_nil] at hsplit
      exact List.noConfusion hsplit
    simp [parse_authorization_header, hsplit, hlow, hb64, hv]
  · intro v t i d hsplit hlow hb64 hlen
    have hv : ¬ v = [] := by
      intro hv0
      subst hv0
      rw [splitWs1_nil] at hsplit
      exact List.noConfusion hsplit
    simp [parse_authorization_header, hsplit, hlow, hb64, hv]
    rcases hd : splitByte 58 3 d with _ | ⟨a, _ | ⟨b, _ | ⟨c3, _ | ⟨d4, tl4⟩⟩⟩⟩
    · simp
    · simp
    · simp
    · rw [hd] at hlen
      simp at hlen
    · simp
  · intro v t i d u uid s2 hsplit hlow hb64 hsp hint
    have hv : ¬ v = [] := by
      intro hv0
      subst hv0
      rw [splitWs1_nil] at hsplit
      exact List.noConfusion hsplit
    simp [parse_authorization_header, hsplit, hlow, hb64, hsp, hint, hv]

theorem claim_C6_witness :
    parse_authorization_header (some (latin1 "session QQ")) = none ∧
    parse_authorization_header (some (latin1 "session dXNlcg==")) = none ∧
    parse_authorization_header (some (latin1 "session dXNlcjp4OnQ=")) = none :=
  ⟨claim_C6.2.2.2.1 (latin1 "session QQ") (latin1 "session") (latin1 "QQ")
      (by decide) (by decide) (by decide),
    claim_C6.2.2.2.2.1 (latin1 "session dXNlcg==") (latin1 "session") (latin1 "dXNlcg==")
      (latin1 "user") (by decide) (by decide) (by decide) (by decide),
    claim_C6.2.2.2.2.2 (latin1 "session dXNlcjp4OnQ=") (latin1 "session")
      (latin1 "dXNlcjp4OnQ=") (latin1 "user:x:t") (latin1 "user") (latin1 "x") (latin1 "t")
      (by decide) (by decide) (by decide) (by decide) (by decide)⟩

/-- C7 counterexample: with no `Authorization` header present, the
`user_application` wrapper does not fail with 401 Unauthorized — the
header lookup `request.headers['Authorization']` raises a `KeyError`
before the `try` block, and that is what escapes the wrapper. -/
theorem claim_C7_counterexample :
    user_application "app" (fun _ _ => none) (fun _ => none) (fun u : Nat => u) =
        (UAOutcome.keyError, 0, 0) ∧
      (UAOutcome.keyError : UAOutcome Nat) ≠ UAOutcome.abort 401 :=
  ⟨rfl, by decide⟩

/-- C7 (amended): with no `Authorization` header, `user_application`
propagates the header mapping's `KeyError` (not a 401) and the handler
is never invoked; the 401 Unauthorized abort occurs exactly when a
present `Authorization` value cannot be split into a scheme and a
payload; and the handler runs exactly once when the scheme is `bearer`
and the token lookup succeeds. -/
theorem claim_C7 (name : String) (check : String → String → Option Nat)
    (headers : String → Option String) (handler : Nat → Nat) :
    (headers "Authorization" = none →
      user_application name check headers handler = (UAOutcome.keyError, 0, 0)) ∧
    (∀ v, headers "Authorization" = some v → (splitWs1Str v).length ≠ 2 →
      user_application name check headers handler = (UAOutcome.abort 401, 0, 0)) ∧
    (∀ v t i uid, headers "Authorization" = some v → splitWs1Str v = [t, i] →
      strLower t = "bearer" → check i name = some uid →
      user_application name check headers handler = (UAOutcome.ok (handler uid), 1, 1)) := by
  refine ⟨?_, ?_, ?_⟩
  · intro hnone
    simp [user_application, hnone]
  · intro v hv hlen
    simp only [user_application, hv]
    rcases hs : splitWs1Str v with _ | ⟨a, _ | ⟨b, _ | ⟨c3, tl3⟩⟩⟩
    · rfl
    · rfl
    · rw [hs] at hlen
      simp at hlen
    · rfl
  · intro v t i uid hv hs hlow hcheck
    simp [user_application, hv, hs, hlow, hcheck]

theorem claim_C7_witness :
    user_application "app" (fun _ _ => none) (fun _ => none) (fun u : Nat => u) =
        (UAOutcome.keyError, 0, 0) ∧
    user_application "app" (fun _ _ => some 9)
        (fun k => if k = "Authorization" then some "Bearer" else none) (fun u : Nat => u) =
        (UAOutcome.abort 401, 0, 0) ∧
    user_application "app" (fun _ _ => some 9)
        (fun k => if k = "Authorization" then some "Bearer tok" else none) (fun u : Nat => u) =
        (UAOutcome.ok 9, 1, 1) :=
  ⟨(claim_C7 "app" (fun _ _ => none) (fun _ => none) (fun u => u)).1 rfl,
    (claim_C7 "app" (fun _ _ => some 9)
        (fun k => if k = "Authorization" then some "Bearer" else none) (fun u => u)).2.1
      "Bearer" (by decide) (by decide),
    (claim_C7 "app" (fun _ _ => some 9)
        (fun k => if k = "Authorization" then some "Bearer tok" else none) (fun u => u)).2.2
      "Bearer tok" "Bearer" "tok" 9 (by decide) (by decide) (by decide) rfl⟩

/-- C8: in `user_application`, a present `Authorization` value whose
scheme does not case-insensitively equal `bearer` aborts with 403
before any token lookup (zero `UserApplication.check` calls, handler
never invoked); a `bearer` token that the application registration
check does not match aborts with 403 after exactly one lookup, handler
never invoked. -/
theorem claim_C8 (name : String) (check : String → String → Option Nat)
    (headers : String → Option String) (handler : Nat → Nat) :
    (∀ v t i, headers "Authorization" = some v → splitWs1Str v = [t, i] →
      strLower t ≠ "bearer" →
      user_application name check headers handler = (UAOutcome.abort 403, 0, 0)) ∧
    (∀ v t i, headers "Authorization" = some v → splitWs1Str v = [t, i] →
      strLower t = "bearer" → check i name = none →
      user_application name check headers handler = (UAOutcome.abort 403, 0, 1)) := by
  constructor
  · intro v t i hv hs hlow
    simp [user_application, hv, hs, hlow]
  · intro v t i hv hs hlow hcheck
    simp [user_application, hv, hs, hlow, hcheck]

theorem claim_C8_witness :
    user_application "app" (fun _ _ => some 9)
        (fun k => if k = "Authorization" then some "Basic Zm9v" else none) (fun u : Nat => u) =
        (UAOutcome.abort 403, 0, 0) ∧
    user_application "app" (fun _ _ => none)
        (fun k => if k = "Authorization" then some "Bearer unknown" else none)
        (fun u : Nat => u) = (UAOutcome.abort 403, 0, 1) :=
  ⟨(claim_C8 "app" (fun _ _ => some 9)
        (fun k => if k = "Authorization" then some "Basic Zm9v" else none) (fun u => u)).1
      "Basic Zm9v" "Basic" "Zm9v" (by decide) (by decide) (by decide),
    (claim_C8 "app" (fun _ _ => none)
        (fun k => if k = "Authorization" then some "Bearer unknown" else none) (fun u => u)).2
      "Bearer unknown" "Bearer" "unknown" (by decide) (by decide) (by decide) rfl⟩

/-- C9: `with_pool` converts a `UserError` or `UserWarning` raised by
the wrapped function into a 400 abort when the request is not an RPC
call and re-raises it untouched when it is; every other non-HTTP
exception becomes a 500 abort for non-RPC calls and is re-raised for
RPC calls. -/
theorem claim_C9 (m : String) (e : Nat) :
    with_pool false (Except.error (PyExc.userError m) : Except PyExc Nat) =
        PoolOutcome.abort 400 ∧
    with_pool true (Except.error (PyExc.userError m) : Except PyExc Nat) =
        PoolOutcome.reraise (PyExc.userError m) ∧
    with_pool false (Except.error (PyExc.userWarning m) : Except PyExc Nat) =
        PoolOutcome.abort 400 ∧
    with_pool true (Except.error (PyExc.userWarning m) : Except PyExc Nat) =
        PoolOutcome.reraise (PyExc.userWarning m) ∧
    with_pool false (Except.error (PyExc.other e) : Except PyExc Nat) =
        PoolOutcome.abort 500 ∧
    with_pool true (Except.error (PyExc.other e) : Except PyExc Nat) =
        PoolOutcome.reraise (PyExc.other e) :=
  ⟨rfl, rfl, rfl, rfl, rfl, rfl⟩

/-- C10: every session authorization value whose decoded base64 payload
contains three or more colons yields no credential: `split(b':', 3)`
then produces four chunks, and unpacking them into three names raises
the `ValueError` the source catches — regardless of whether the payload
begins with a well-formed username and integer user id. -/
theorem claim_C10 (v t i d : List Nat) (hsplit : splitWs1 v = [t, i])
    (hlow : bytesLower t = latin1 "session") (hb64 : b64decode i = some d)
    (hcolons : 3 ≤ d.countP (fun b => decide (b = 58))) :
    parse_authorization_header (some v) = none := by
  have hv : ¬ v = [] := by
    intro hv0
    subst hv0
    rw [splitWs1_nil] at hsplit
    exact List.noConfusion hsplit
  have hlen : (splitByte 58 3 d).length = 4 := by
    unfold splitByte
    rw [splitByteGo_length]
    omega
  simp [parse_authorization_header, hsplit, hlow, hb64, hv]
  rcases hd : splitByte 58 3 d with _ | ⟨a, _ | ⟨b, _ | ⟨c3, _ | ⟨d4, tl4⟩⟩⟩⟩
  · simp
  · simp
  · simp
  · rw [hd] at hlen
    simp at hlen
  · simp

theorem claim_C10_witness :
    parse_authorization_header (some (latin1 "session YToxOmI6Yw==")) = none :=
  claim_C10 (latin1 "session YToxOmI6Yw==") (latin1 "session") (latin1 "YToxOmI6Yw==")
    (latin1 "a:1:b:c") (by decide) (by decide) (by decide) (by decide)
